import Mathlib

/-!
Shallow embedding of the traffic-shifting and change-request core of
`zalando_deploy_cli/cli.py`, together with proofs about its behaviour.

Machine integers of the original program are modelled as `Int`; the
Kubernetes deployment records are reduced to the only field the core
reads (`metadata.name`); the external HTTP calls are modelled by passing
the observed responses in as values and recording the emitted side
effects as explicit event lists.
-/

/-- A deployment record as consumed by the core: only `metadata.name`
is ever read (cli.py, `switch_deployment` and `delete_old_deployments`). -/
structure Deployment where
  name : String
deriving DecidableEq

/-- A JSON scalar appearing as a patch value. -/
inductive JsonValue where
  | int : Int → JsonValue
  | str : String → JsonValue
deriving DecidableEq

/-- One JSON-Patch style operation record, cli.py lines 126 and 134. -/
structure PatchOp where
  op : String
  path : String
  value : JsonValue
deriving DecidableEq

/-- One entry of `ResourcesUpdate.resources_update`, cli.py lines 123-127. -/
structure ResourceUpdateEntry where
  name : String
  kind : String
  operations : List PatchOp
deriving DecidableEq

/-- The entry appended by `ResourcesUpdate.set_number_of_replicas`
(cli.py lines 122-127): kind defaults to `deployments`, one replace
operation on `/spec/replicas`. -/
def setReplicasEntry (name : String) (replicas : Int) : ResourceUpdateEntry :=
  ⟨name, "deployments", [⟨"replace", "/spec/replicas", JsonValue.int replicas⟩]⟩

/-- Replica value carried by an entry built with `setReplicasEntry`. -/
def entryReplicas (e : ResourceUpdateEntry) : Int :=
  match e.operations with
  | [PatchOp.mk _ _ (JsonValue.int v)] => v
  | _ => 0

/-- Sum of the replica values of a built update document. -/
def planSum (es : List ResourceUpdateEntry) : Int :=
  (es.map entryReplicas).sum

/-- Strict lexicographic comparison of character lists by code point,
the order Python uses on strings: a proper prefix is smaller, and the
first differing position decides. -/
def charListLt : List Char → List Char → Bool
  | _, [] => false
  | [], _ :: _ => true
  | a :: as, b :: bs =>
    if a.toNat < b.toNat then true
    else if b.toNat < a.toNat then false
    else charListLt as bs

/-- Strict lexicographic order on strings by code point. -/
def strLt (a b : String) : Bool :=
  charListLt a.data b.data

/-- `a ≤ b` in the lexicographic order: not `b < a`. -/
def strLe (a b : String) : Bool :=
  !strLt b a

theorem charListLt_asymm :
    ∀ a b : List Char, charListLt a b = true → charListLt b a = false := by
  intro a
  induction a with
  | nil =>
    intro b h
    cases b with
    | nil => simp [charListLt] at h
    | cons y ys => simp [charListLt]
  | cons x xs ih =>
    intro b h
    cases b with
    | nil => simp [charListLt] at h
    | cons y ys =>
      simp only [charListLt] at h ⊢
      by_cases h1 : x.toNat < y.toNat
      · have h2 : ¬ y.toNat < x.toNat := by omega
        simp [h1, h2]
      · by_cases h2 : y.toNat < x.toNat
        · simp [h1, h2] at h
        · simp only [h1, h2, if_false] at h ⊢
          exact ih ys h

theorem charListLt_trans :
    ∀ a b c : List Char, charListLt a b = true → charListLt b c = true →
      charListLt a c = true := by
  intro a
  induction a with
  | nil =>
    intro b c hab hbc
    cases c with
    | nil =>
      cases b with
      | nil => simp [charListLt] at hab
      | cons y ys => simp [charListLt] at hbc
    | cons z zs => simp [charListLt]
  | cons x xs ih =>
    intro b c hab hbc
    cases b with
    | nil => simp [charListLt] at hab
    | cons y ys =>
      cases c with
      | nil => simp [charListLt] at hbc
      | cons z zs =>
        simp only [charListLt] at hab hbc ⊢
        by_cases hxy : x.toNat < y.toNat
        · by_cases hyz : y.toNat < z.toNat
          · have : x.toNat < z.toNat := by omega
            simp [this]
          · by_cases hzy : z.toNat < y.toNat
            · simp [hyz, hzy] at hbc
            · have : x.toNat < z.toNat := by omega
              simp [this]
        · by_cases hyx : y.toNat < x.toNat
          · simp [hxy, hyx] at hab
          · by_cases hyz : y.toNat < z.toNat
            · have hxz : x.toNat < z.toNat := by omega
              simp [hxz]
            · by_cases hzy : z.toNat < y.toNat
              · simp [hyz, hzy] at hbc
              · have hxz : ¬ x.toNat < z.toNat := by omega
                have hzx : ¬ z.toNat < x.toNat := by omega
                simp only [hxy, hyx, if_false] at hab
                simp only [hyz, hzy, if_false] at hbc
                simp only [hxz, hzx, if_false]
                exact ih ys zs hab hbc

theorem charListLt_congr_right :
    ∀ (a b : List Char), a.map Char.toNat = b.map Char.toNat →
      ∀ c, charListLt c a = charListLt c b := by
  intro a
  induction a with
  | nil =>
    intro b hb c
    cases b with
    | nil => rfl
    | cons y ys => simp at hb
  | cons x xs ih =>
    intro b hb c
    cases b with
    | nil => simp at hb
    | cons y ys =>
      simp only [List.map_cons, List.cons.injEq] at hb
      rcases hb with ⟨hxy, hxs⟩
      cases c with
      | nil => simp [charListLt]
      | cons z zs =>
        simp only [charListLt, hxy]
        by_cases h1 : z.toNat < y.toNat
        · simp [h1]
        · by_cases h2 : y.toNat < z.toNat
          · simp [h1, h2]
          · simp only [h1, h2, if_false]
            exact ih ys hxs zs

theorem charListLt_total :
    ∀ a b : List Char, charListLt a b = true ∨ charListLt b a = true ∨
      a.map Char.toNat = b.map Char.toNat := by
  intro a
  induction a with
  | nil =>
    intro b
    cases b with
    | nil => right; right; rfl
    | cons y ys => left; simp [charListLt]
  | cons x xs ih =>
    intro b
    cases b with
    | nil => right; left; simp [charListLt]
    | cons y ys =>
      by_cases h1 : x.toNat < y.toNat
      · left; simp [charListLt, h1]
      · by_cases h2 : y.toNat < x.toNat
        · right; left; simp [charListLt, h1, h2]
        · rcases ih ys with h | h | h
          · left; simp [charListLt, h1, h2, h]
          · right; left; simp [charListLt, h1, h2, h]
          · right; right
            have hxy : x.toNat = y.toNat := by omega
            simp [List.map_cons, hxy, h]

theorem strLe_total (a b : String) : strLe a b = true ∨ strLe b a = true := by
  by_cases h : strLt b a = true
  · right
    simp only [strLe, strLt] at h ⊢
    simp [charListLt_asymm _ _ h]
  · left
    simp only [strLe]
    simp only [Bool.not_eq_true] at h
    simp [h]

theorem strLe_trans (a b c : String)
    (h1 : strLe a b = true) (h2 : strLe b c = true) : strLe a c = true := by
  simp only [strLe, strLt, Bool.not_eq_true'] at h1 h2 ⊢
  by_contra hca
  simp only [Bool.not_eq_false] at hca
  rcases charListLt_total b.data a.data with h | h | h
  · rw [h] at h1; exact Bool.noConfusion h1
  · have := charListLt_trans _ _ _ hca h
    rw [this] at h2; exact Bool.noConfusion h2
  · rw [charListLt_congr_right b.data a.data h c.data] at h2
    rw [hca] at h2; exact Bool.noConfusion h2

/-- Stable descending insertion (by `metadata.name`): the new element is
placed before the first element whose name is `≤` its own, so elements
with equal names keep their original relative order.  Together with
`sortByNameDesc` this is extensionally the Python call
`sorted(deployments, key=lambda d: d.metadata.name, reverse=True)`
(cli.py lines 387 and 499), which is a stable descending sort on the
lexicographic string order. -/
def insertDesc (d : Deployment) : List Deployment → List Deployment
  | [] => [d]
  | e :: l => if strLe e.name d.name then d :: e :: l else e :: insertDesc d l

/-- Stable sort by name, descending (see `insertDesc`). -/
def sortByNameDesc : List Deployment → List Deployment
  | [] => []
  | d :: l => insertDesc d (sortByNameDesc l)

theorem insertDesc_perm (d : Deployment) (l : List Deployment) :
    List.Perm (insertDesc d l) (d :: l) := by
  induction l with
  | nil => simp [insertDesc]
  | cons e l ih =>
    simp only [insertDesc]
    split
    · exact List.Perm.refl _
    · exact (List.Perm.cons e ih).trans (List.Perm.swap d e l)

theorem sortByNameDesc_perm (l : List Deployment) :
    List.Perm (sortByNameDesc l) l := by
  induction l with
  | nil => exact List.Perm.refl _
  | cons d l ih =>
    exact (insertDesc_perm d (sortByNameDesc l)).trans (List.Perm.cons d ih)

theorem insertDesc_pairwise (d : Deployment) (l : List Deployment)
    (h : List.Pairwise (fun a b => strLe b.name a.name = true) l) :
    List.Pairwise (fun a b => strLe b.name a.name = true) (insertDesc d l) := by
  induction l with
  | nil => simp [insertDesc]
  | cons e l ih =>
    rcases List.pairwise_cons.mp h with ⟨he, hl⟩
    simp only [insertDesc]
    split
    · rename_i hle
      refine List.pairwise_cons.mpr ⟨?_, h⟩
      intro x hx
      rcases List.mem_cons.mp hx with hx | hx
      · subst hx; exact hle
      · exact strLe_trans x.name e.name d.name (he x hx) hle
    · rename_i hgt
      refine List.pairwise_cons.mpr ⟨?_, ih hl⟩
      intro x hx
      have hx2 := (insertDesc_perm d l).mem_iff.mp hx
      rcases List.mem_cons.mp hx2 with hx2 | hx2
      · have hgoal : strLe d.name e.name = true := by
          rcases strLe_total e.name d.name with hc | hc
          · exact absurd hc hgt
          · exact hc
        rw [hx2]
        exact hgoal
      · exact he x hx2

theorem sortByNameDesc_pairwise (l : List Deployment) :
    List.Pairwise (fun a b => strLe b.name a.name = true) (sortByNameDesc l) := by
  induction l with
  | nil => simp [sortByNameDesc]
  | cons d l ih => exact insertDesc_pairwise d (sortByNameDesc l) ih

/-- The replica-assignment walk of `switch_deployment` (cli.py lines
386-397): walk the sorted deployments, the target gets
`target_replicas`, any other deployment gets the current `remaining`
which is then reset to 0; one `set_number_of_replicas` entry and one
`Scaling deployment <name> to <n> replicas..` log line are emitted per
deployment, in walk order. -/
def switchWalk (target : String) (target_replicas : Int) :
    Int → List Deployment → List ResourceUpdateEntry × List String
  | _, [] => ([], [])
  | remaining, d :: ds =>
    let replicas := if d.name = target then target_replicas else remaining
    let remaining' := if d.name = target then remaining else 0
    let rest := switchWalk target target_replicas remaining' ds
    (setReplicasEntry d.name replicas :: rest.1,
     ("Scaling deployment " ++ d.name ++ " to " ++ toString replicas ++ " replicas..") :: rest.2)

/-- Observable outcome of the `switch-deployment` command body. -/
inductive SwitchOutcome where
  | exited : Int → String → SwitchOutcome
  | submitted : List ResourceUpdateEntry → List String → SwitchOutcome
deriving DecidableEq

/-- `switch_deployment` (cli.py lines 364-408): build the target name
`application-version-release`, fail with exit status 1 if no queried
deployment carries that name, otherwise walk the deployments sorted by
name descending assigning replicas, and submit the built update
document as one PATCH change request. -/
def switch_deployment (deployments : List Deployment)
    (application version release : String)
    (target_replicas total : Int) : SwitchOutcome :=
  let target_deployment_name := application ++ "-" ++ version ++ "-" ++ release
  let target_deployment_exists := deployments.any (fun d => d.name = target_deployment_name)
  if target_deployment_exists then
    let p := switchWalk target_deployment_name target_replicas (total - target_replicas)
      (sortByNameDesc deployments)
    SwitchOutcome.submitted p.1 p.2
  else
    SwitchOutcome.exited 1 ("Deployment " ++ target_deployment_name ++ " does not exist!")

/-- Replica plan sum of a switch outcome (`none` when nothing was submitted). -/
def outcomeSum : SwitchOutcome → Option Int
  | SwitchOutcome.submitted es _ => some (planSum es)
  | SwitchOutcome.exited _ _ => none

theorem switchWalk_fst_get? (target : String) (tR : Int) :
    ∀ (l : List Deployment) (rem : Int) (i : Nat),
      ((switchWalk target tR rem l).1)[i]? =
        (l[i]?).map (fun x => setReplicasEntry x.name
          (if x.name = target then tR
           else if (l.take i).all (fun y => decide (y.name = target)) then rem else 0)) := by
  intro l
  induction l with
  | nil => intro rem i; simp [switchWalk]
  | cons d ds ih =>
    intro rem i
    cases i with
    | zero =>
      simp [switchWalk]
    | succ i =>
      have hcons : (switchWalk target tR rem (d :: ds)).1 =
          setReplicasEntry d.name (if d.name = target then tR else rem) ::
            (switchWalk target tR (if d.name = target then rem else 0) ds).1 := rfl
      rw [hcons, List.getElem?_cons_succ, ih]
      by_cases hd : d.name = target
      · simp [hd, List.getElem?_cons_succ, List.take_succ_cons, List.all_cons]
      · simp only [hd, if_false, List.getElem?_cons_succ, List.take_succ_cons, List.all_cons]
        cases h : ds[i]? with
        | none => simp [h]
        | some x =>
          by_cases hx : x.name = target
          · simp [hx]
          · simp [hx, hd]

theorem switchWalk_fst_names (target : String) (tR : Int) :
    ∀ (l : List Deployment) (rem : Int),
      ((switchWalk target tR rem l).1).map ResourceUpdateEntry.name =
        l.map Deployment.name := by
  intro l
  induction l with
  | nil => intro rem; simp [switchWalk]
  | cons d ds ih => intro rem; simp [switchWalk, setReplicasEntry, ih]

theorem planSum_cons (e : ResourceUpdateEntry) (es : List ResourceUpdateEntry) :
    planSum (e :: es) = entryReplicas e + planSum es := by
  simp [planSum]

theorem switchWalk_sum (target : String) (tR : Int) :
    ∀ (l : List Deployment) (rem : Int),
      planSum (switchWalk target tR rem l).1 =
        tR * (l.countP (fun d => decide (d.name = target)) : Int) +
          (if l.any (fun d => decide (d.name ≠ target)) then rem else 0) := by
  intro l
  induction l with
  | nil => intro rem; simp [switchWalk, planSum]
  | cons d ds ih =>
    intro rem
    have hstep : (switchWalk target tR rem (d :: ds)).1 =
        setReplicasEntry d.name (if d.name = target then tR else rem) ::
          (switchWalk target tR (if d.name = target then rem else 0) ds).1 := rfl
    rw [hstep, planSum_cons, ih]
    by_cases hd : d.name = target
    · by_cases hany : (ds.any fun x => decide (x.name ≠ target)) = true
      · simp [hd, hany, List.countP_cons, List.any_cons, entryReplicas, setReplicasEntry]
        ring
      · simp [hd, hany, List.countP_cons, List.any_cons, entryReplicas, setReplicasEntry]
        ring
    · by_cases hany : (ds.any fun x => decide (x.name ≠ target)) = true
      · simp [hd, hany, List.countP_cons, List.any_cons, entryReplicas, setReplicasEntry]
        ring
      · simp [hd, hany, List.countP_cons, List.any_cons, entryReplicas, setReplicasEntry]
        ring

/-- One entry of a pod's `status.containerStatuses` list; `ready` is
`none` when the key is absent (then `cont.get('ready')` is falsy). -/
structure ContainerStatus where
  ready : Option Bool
deriving DecidableEq

/-- A pod as read by `wait_for_deployment` (cli.py lines 313-320):
`status.phase` (absent key modelled as `none`) and the
`status.containerStatuses` list, `none` when the key is absent, in
which case the code falls back to the empty list. -/
structure Pod where
  phase : Option String
  containerStatuses : Option (List ContainerStatus)
deriving DecidableEq

/-- Readiness of one pod (cli.py lines 314-320): phase must be
`Running` and every entry of `containerStatuses` (defaulting to the
empty list) must have a truthy `ready` field. -/
def podReady (p : Pod) : Bool :=
  p.phase = some "Running" &&
    (p.containerStatuses.getD []).all (fun c => c.ready.getD false)

/-- Result of a `wait-for-deployment` run: whether it returned
successfully (cli.py line 322) or aborted on timeout (line 326), and
how many cluster polls (`kubectl_get` calls) were issued. -/
structure WaitResult where
  success : Bool
  numPolls : Nat
deriving DecidableEq

/-- The polling loop of `wait_for_deployment` (cli.py lines 308-326).
Time is modelled as a natural-number clock that starts at `now`,
against the deadline `cutoff`; every iteration polls once
(`polls i` is the pod list returned by the i-th `kubectl_get`),
returns success when the poll is non-empty and every pod is ready, and
otherwise sleeps, advancing the clock by the interval `ivPred + 1`
(the interval is at least 1 after click's clamping, see
`wait_for_deployment`).  When the clock reaches the deadline the loop
ends and the command aborts. -/
def waitLoop (polls : Nat → List Pod) (ivPred : Nat) (i now cutoff : Nat) : WaitResult :=
  if now < cutoff then
    let pods := polls i
    if pods.length ≠ 0 ∧ pods.countP (fun p => podReady p) ≥ pods.length then
      ⟨true, i + 1⟩
    else
      waitLoop polls ivPred (i + 1) (now + (ivPred + 1)) cutoff
  else ⟨false, i⟩
termination_by cutoff - now
decreasing_by omega

/-- `wait_for_deployment` (cli.py lines 289-326): click clamps the
timeout into [0, 7200] and the interval into [1, 600]; the deadline is
the current clock (modelled as 0) plus the timeout, and the loop runs
while the clock is strictly below the deadline. -/
def wait_for_deployment (polls : Nat → List Pod) (timeout interval : Int) : WaitResult :=
  let t := min 7200 (max 0 timeout)
  let iv := min 600 (max 1 interval)
  waitLoop polls (iv.toNat - 1) 0 0 t.toNat

/-- An HTTP response from the change authority, as observed by
`request` (cli.py lines 70-84): the status code, the body text, and
the `id` field of the parsed JSON body (used after mutating calls). -/
structure HttpResponse where
  status : Int
  body : String
  id : String
deriving DecidableEq

/-- The error message printed by `request` (cli.py line 82). -/
def serverErrorMsg (url : String) (resp : HttpResponse) : String :=
  "Server returned HTTP error " ++ toString resp.status ++ " for " ++ url ++ ":\n" ++ resp.body

/-- Result of one `request` call: the response, or an abort of the
whole command with an exit code and the printed error message. -/
inductive ReqResult where
  | ok : HttpResponse → ReqResult
  | err : Int → String → ReqResult
deriving DecidableEq

/-- `request` (cli.py lines 70-84) with `exit_on_error`: a status
outside [200, 400) prints the error message and exits with code 2;
otherwise the response is returned. -/
def request_model (exit_on_error : Bool) (url : String) (resp : HttpResponse) : ReqResult :=
  if exit_on_error ∧ ¬(200 ≤ resp.status ∧ resp.status < 400) then
    ReqResult.err 2 (serverErrorMsg url resp)
  else
    ReqResult.ok resp

/-- Externally visible events of one command run against the change
authority. -/
inductive Event where
  | submitCall : Event
  | approveCall : String → Event
  | executeCall : String → Event
  | errorOut : String → Event
  | exitedWith : Int → Event
  | printed : String → Event
deriving DecidableEq

/-- `approve` then `execute` (cli.py lines 87-100), as the list of
events the run emits, given the responses the authority returns for
the two calls.  Each call records its own event before `request` can
abort; an abort (exit code 2) ends the run. -/
def approve_and_execute_model (id : String) (approveResp executeResp : HttpResponse) :
    List Event :=
  match request_model true ("/change-requests/" ++ id ++ "/approvals") approveResp with
  | ReqResult.err c m => [Event.approveCall id, Event.errorOut m, Event.exitedWith c]
  | ReqResult.ok _ =>
    match request_model true ("/change-requests/" ++ id ++ "/execute") executeResp with
    | ReqResult.err c m =>
      [Event.approveCall id, Event.executeCall id, Event.errorOut m, Event.exitedWith c]
    | ReqResult.ok _ => [Event.approveCall id, Event.executeCall id]

/-- The submit-then-finish tail shared by the mutating commands
(cli.py, e.g. lines 402-408): issue the mutating call through
`request`; on a non-success status the command prints the error and
exits with code 2; otherwise it reads the change request id from the
response and either drives approve/execute (`--execute`) or prints the
id and stops. -/
def submit_then_finish (doExecute : Bool) (url : String)
    (submitResp approveResp executeResp : HttpResponse) : List Event :=
  match request_model true url submitResp with
  | ReqResult.err c m => [Event.submitCall, Event.errorOut m, Event.exitedWith c]
  | ReqResult.ok resp =>
    Event.submitCall ::
      (if doExecute then approve_and_execute_model resp.id approveResp executeResp
       else [Event.printed resp.id])

/-- Observable outcome of the `delete-old-deployments` command body:
either an abort with an error message and no deletions, or the ordered
list of per-deployment deletions, each a pair of the log line printed
before the call and the path of its own DELETE change request. -/
inductive DeleteOutcome where
  | aborted : String → DeleteOutcome
  | deleted : List (String × String) → DeleteOutcome
deriving DecidableEq

/-- The collection loop of `delete_old_deployments` (cli.py lines
499-504): walk the deployments sorted by name descending, record
whether the target was seen and gather the names of all others, in
walk order. -/
def collectDeletions (target : String) : List Deployment → List String × Bool
  | [] => ([], false)
  | d :: ds =>
    let rest := collectDeletions target ds
    if d.name = target then (rest.1, true)
    else (d.name :: rest.1, rest.2)

/-- `delete_old_deployments` (cli.py lines 488-522): sort the queried
deployments by name descending, collect every non-target name, abort
with an error message when the target was not among them (before any
deletion), and otherwise delete the collected names one at a time, in
order, logging `Deleting deployment <name>..` before each DELETE
change request. -/
def delete_old_deployments (deployments : List Deployment)
    (application version release cluster_id ns : String) : DeleteOutcome :=
  let target_deployment_name := application ++ "-" ++ version ++ "-" ++ release
  let c := collectDeletions target_deployment_name (sortByNameDesc deployments)
  if c.2 then
    DeleteOutcome.deleted (c.1.map (fun n =>
      ("Deleting deployment " ++ n ++ "..",
       "/kubernetes-clusters/" ++ cluster_id ++ "/namespaces/" ++ ns ++
         "/deployments/" ++ n)))
  else
    DeleteOutcome.aborted ("Deployment " ++ target_deployment_name ++ " was not found.")

theorem collectDeletions_eq (target : String) (l : List Deployment) :
    collectDeletions target l =
      ((l.filter (fun d => decide (d.name ≠ target))).map Deployment.name,
       l.any (fun d => decide (d.name = target))) := by
  induction l with
  | nil => simp [collectDeletions]
  | cons d ds ih =>
    by_cases hd : d.name = target
    · simp [collectDeletions, ih, hd]
    · simp [collectDeletions, ih, hd]

/-- Whether the switch command reached the PATCH submission. -/
def isSubmitted : SwitchOutcome → Bool
  | SwitchOutcome.submitted _ _ => true
  | SwitchOutcome.exited _ _ => false

/-- The update entries submitted by the switch command (empty when it
exited before building a patch). -/
def outcomeEntries : SwitchOutcome → List ResourceUpdateEntry
  | SwitchOutcome.submitted es _ => es
  | SwitchOutcome.exited _ _ => []

theorem switch_deployment_submitted_eq (deployments : List Deployment)
    (application version release : String) (target_replicas total : Int)
    (h : (application ++ "-" ++ version ++ "-" ++ release) ∈ deployments.map Deployment.name) :
    switch_deployment deployments application version release target_replicas total =
      SwitchOutcome.submitted
        (switchWalk (application ++ "-" ++ version ++ "-" ++ release) target_replicas
          (total - target_replicas) (sortByNameDesc deployments)).1
        (switchWalk (application ++ "-" ++ version ++ "-" ++ release) target_replicas
          (total - target_replicas) (sortByNameDesc deployments)).2 := by
  rcases List.mem_map.mp h with ⟨d, hd, hname⟩
  have hany : (deployments.any fun d =>
      decide (d.name = application ++ "-" ++ version ++ "-" ++ release)) = true :=
    List.any_eq_true.mpr ⟨d, hd, by simp [hname]⟩
  simp [switch_deployment, hany]

/-- C1: for every queried deployment set that contains the target name
`application-version-release`, `switch-deployment` sorts the
deployments by full name in descending lexicographic order and assigns
replicas walking that order: the target deployment gets
`target_replicas`, the first non-target deployment gets the whole
`total - target_replicas`, and every later non-target deployment gets
0; one `setReplicas` patch entry is emitted per deployment, in the
sorted order, whether or not the value changed.  In particular for
deployments `myapp-v3-r40`, `myapp-v2-r41`, `myapp-v2-r42`, target
`myapp-v2-r42` and ratio 1/2, the assignment is v3-r40 to 1, v2-r42 to
1, v2-r41 to 0, with the patches emitted in that order. -/
theorem c1_switch_plan (deployments : List Deployment)
    (application version release : String) (target_replicas total : Int)
    (h : (application ++ "-" ++ version ++ "-" ++ release) ∈ deployments.map Deployment.name) :
    isSubmitted (switch_deployment deployments application version release
      target_replicas total) = true ∧
    List.Pairwise (fun a b => strLe b.name a.name = true) (sortByNameDesc deployments) ∧
    List.Perm (sortByNameDesc deployments) deployments ∧
    (outcomeEntries (switch_deployment deployments application version release
        target_replicas total)).map ResourceUpdateEntry.name =
      (sortByNameDesc deployments).map Deployment.name ∧
    (∀ i : Nat,
      (outcomeEntries (switch_deployment deployments application version release
          target_replicas total))[i]? =
        ((sortByNameDesc deployments)[i]?).map (fun x => setReplicasEntry x.name
          (if x.name = application ++ "-" ++ version ++ "-" ++ release then target_replicas
           else if ((sortByNameDesc deployments).take i).all
               (fun y => decide (y.name = application ++ "-" ++ version ++ "-" ++ release)) then
             total - target_replicas
           else 0))) ∧
    switch_deployment [⟨"myapp-v3-r40"⟩, ⟨"myapp-v2-r41"⟩, ⟨"myapp-v2-r42"⟩]
        "myapp" "v2" "r42" 1 2 =
      SwitchOutcome.submitted
        [setReplicasEntry "myapp-v3-r40" 1,
         setReplicasEntry "myapp-v2-r42" 1,
         setReplicasEntry "myapp-v2-r41" 0]
        ["Scaling deployment myapp-v3-r40 to 1 replicas..",
         "Scaling deployment myapp-v2-r42 to 1 replicas..",
         "Scaling deployment myapp-v2-r41 to 0 replicas.."] := by
  have hsub := switch_deployment_submitted_eq deployments application version release
    target_replicas total h
  refine ⟨?_, sortByNameDesc_pairwise _, sortByNameDesc_perm _, ?_, ?_, ?_⟩
  · rw [hsub]; rfl
  · rw [hsub]
    exact switchWalk_fst_names _ _ _ _
  · intro i
    rw [hsub]
    exact switchWalk_fst_get? _ _ _ _ i
  · decide

/-- Witness for C1 at the concrete example of the claim. -/
theorem c1_switch_plan_witness :
    ("myapp" ++ "-" ++ "v2" ++ "-" ++ "r42") ∈
      ([⟨"myapp-v3-r40"⟩, ⟨"myapp-v2-r41"⟩, ⟨"myapp-v2-r42"⟩] :
        List Deployment).map Deployment.name ∧
    switch_deployment [⟨"myapp-v3-r40"⟩, ⟨"myapp-v2-r41"⟩, ⟨"myapp-v2-r42"⟩]
        "myapp" "v2" "r42" 1 2 =
      SwitchOutcome.submitted
        [setReplicasEntry "myapp-v3-r40" 1,
         setReplicasEntry "myapp-v2-r42" 1,
         setReplicasEntry "myapp-v2-r41" 0]
        ["Scaling deployment myapp-v3-r40 to 1 replicas..",
         "Scaling deployment myapp-v2-r42 to 1 replicas..",
         "Scaling deployment myapp-v2-r41 to 0 replicas.."] := by
  refine ⟨by decide, ?_⟩
  exact (c1_switch_plan [⟨"myapp-v3-r40"⟩, ⟨"myapp-v2-r41"⟩, ⟨"myapp-v2-r42"⟩]
    "myapp" "v2" "r42" 1 2 (by decide)).2.2.2.2.2

theorem countP_eq_one_of_nodup_mem {l : List String} {t : String}
    (hnodup : l.Nodup) (hmem : t ∈ l) :
    l.countP (fun n => decide (n = t)) = 1 := by
  induction l with
  | nil => cases hmem
  | cons x xs ih =>
    rcases List.nodup_cons.mp hnodup with ⟨hx, hxs⟩
    rw [List.countP_cons]
    rcases List.mem_cons.mp hmem with rfl | hmemxs
    · have h0 : xs.countP (fun n => decide (n = t)) = 0 := by
        rw [List.countP_eq_zero]
        intro a ha
        simp only [decide_eq_true_eq]
        intro hat
        exact hx (hat ▸ ha)
      simp [h0]
    · have h1 := ih hxs hmemxs
      have hxt : ¬ (x = t) := fun he => hx (he ▸ hmemxs)
      simp [h1, hxt]

/-- C2 counterexample: a queried set holding only the target deployment,
ratio 1/2 (so `0 ≤ targetReplicas ≤ total`): the submitted plan sums to
1, not to the total 2 — the walk assigns the target `target_replicas`
and there is no other deployment to receive the remainder. -/
theorem c2_sum_counterexample :
    outcomeSum (switch_deployment [⟨"myapp-v1-r1"⟩] "myapp" "v1" "r1" 1 2) = some 1 ∧
    (0 : Int) ≤ 1 ∧ (1 : Int) ≤ 2 ∧ (1 : Int) ≠ 2 ∧
    ("myapp" ++ "-" ++ "v1" ++ "-" ++ "r1") ∈
      ([⟨"myapp-v1-r1"⟩] : List Deployment).map Deployment.name := by
  decide

/-- C2 amended: for every deployment set with pairwise distinct names
that contains the target name and at least one non-target deployment,
and every ratio `target_replicas/total` with
`0 ≤ target_replicas ≤ total`, the replica values of the traffic plan
built by `switch-deployment` sum to exactly `total`.  (For a set
holding only the target deployment the sum is `target_replicas`
instead, see the counterexample.) -/
theorem c2_sum_amended (deployments : List Deployment)
    (application version release : String) (target_replicas total : Int)
    (hnodup : (deployments.map Deployment.name).Nodup)
    (hmem : (application ++ "-" ++ version ++ "-" ++ release) ∈ deployments.map Deployment.name)
    (hother : ∃ d ∈ deployments, d.name ≠ application ++ "-" ++ version ++ "-" ++ release)
    (_h0 : 0 ≤ target_replicas) (_htot : target_replicas ≤ total) :
    outcomeSum (switch_deployment deployments application version release
      target_replicas total) = some total := by
  have hsub := switch_deployment_submitted_eq deployments application version release
    target_replicas total hmem
  rw [hsub]
  show some _ = some total
  congr 1
  rw [switchWalk_sum]
  have hcount : (sortByNameDesc deployments).countP
      (fun d => decide (d.name = application ++ "-" ++ version ++ "-" ++ release)) = 1 := by
    rw [(sortByNameDesc_perm deployments).countP_eq]
    have hmapped : (deployments.map Deployment.name).countP
        (fun n => decide (n = application ++ "-" ++ version ++ "-" ++ release)) = 1 :=
      countP_eq_one_of_nodup_mem hnodup hmem
    rw [List.countP_map] at hmapped
    exact hmapped
  have hany : ((sortByNameDesc deployments).any
      (fun d => decide (d.name ≠ application ++ "-" ++ version ++ "-" ++ release))) = true := by
    rcases hother with ⟨d, hd, hne⟩
    exact List.any_eq_true.mpr
      ⟨d, (sortByNameDesc_perm deployments).mem_iff.mpr hd, by simp [hne]⟩
  rw [hcount, hany]
  simp

/-- Witness for C2's amended theorem: two distinct deployments, target
present, ratio 1/2, plan sums to 2. -/
theorem c2_sum_amended_witness :
    outcomeSum (switch_deployment [⟨"myapp-v1-r1"⟩, ⟨"myapp-v1-r2"⟩]
      "myapp" "v1" "r1" 1 2) = some 2 := by
  exact c2_sum_amended [⟨"myapp-v1-r1"⟩, ⟨"myapp-v1-r2"⟩] "myapp" "v1" "r1" 1 2
    (by decide) (by decide) (by decide) (by decide) (by decide)

/-- C3: when no queried deployment carries the target name,
`switch-deployment` exits with status 1 and an error message naming
the missing deployment, and nothing is submitted. -/
theorem c3_target_not_found (deployments : List Deployment)
    (application version release : String) (target_replicas total : Int)
    (h : ∀ d ∈ deployments, d.name ≠ application ++ "-" ++ version ++ "-" ++ release) :
    switch_deployment deployments application version release target_replicas total =
      SwitchOutcome.exited 1
        ("Deployment " ++ (application ++ "-" ++ version ++ "-" ++ release) ++
          " does not exist!") ∧
    ∀ es ls, switch_deployment deployments application version release target_replicas total ≠
      SwitchOutcome.submitted es ls := by
  have hany : (deployments.any fun d =>
      decide (d.name = application ++ "-" ++ version ++ "-" ++ release)) = false := by
    rw [List.any_eq_false]
    intro d hd
    simp [h d hd]
  have heq : switch_deployment deployments application version release target_replicas total =
      SwitchOutcome.exited 1
        ("Deployment " ++ (application ++ "-" ++ version ++ "-" ++ release) ++
          " does not exist!") := by
    simp [switch_deployment, hany]
  refine ⟨heq, ?_⟩
  intro es ls hcontra
  rw [heq] at hcontra
  exact SwitchOutcome.noConfusion hcontra

/-- Witness for C3: the spec's example, target `myapp-v2-r42` absent
from the queried set. -/
theorem c3_target_not_found_witness :
    (([⟨"myapp-v3-r40"⟩, ⟨"myapp-v2-r41"⟩, ⟨"myapp-v2-r43"⟩] : List Deployment).all
      (fun d => decide (d.name ≠ "myapp" ++ "-" ++ "v2" ++ "-" ++ "r42"))) = true ∧
    switch_deployment [⟨"myapp-v3-r40"⟩, ⟨"myapp-v2-r41"⟩, ⟨"myapp-v2-r43"⟩]
        "myapp" "v2" "r42" 1 2 =
      SwitchOutcome.exited 1 "Deployment myapp-v2-r42 does not exist!" := by
  refine ⟨by decide, ?_⟩
  have h := (c3_target_not_found [⟨"myapp-v3-r40"⟩, ⟨"myapp-v2-r41"⟩, ⟨"myapp-v2-r43"⟩]
    "myapp" "v2" "r42" 1 2 (by decide)).1
  simpa using h

/-- C4: `approve_and_execute` invokes approve strictly before execute:
the approve call is always the first event, any execute event sits at
a strictly later position, and when the approve call fails (status
outside [200, 400), aborting the command) no execute call is ever
issued. -/
theorem c4_approve_before_execute (id : String) (approveResp executeResp : HttpResponse) :
    ((approve_and_execute_model id approveResp executeResp)[0]? =
      some (Event.approveCall id)) ∧
    (∀ j : Nat, (approve_and_execute_model id approveResp executeResp)[j]? =
      some (Event.executeCall id) → 0 < j) ∧
    (¬(200 ≤ approveResp.status ∧ approveResp.status < 400) →
      Event.executeCall id ∉ approve_and_execute_model id approveResp executeResp) := by
  by_cases ha : 200 ≤ approveResp.status ∧ approveResp.status < 400
  · have hreq : request_model true ("/change-requests/" ++ id ++ "/approvals") approveResp =
        ReqResult.ok approveResp := by
      simp [request_model, ha]
    by_cases he : 200 ≤ executeResp.status ∧ executeResp.status < 400
    · have hreq2 : request_model true ("/change-requests/" ++ id ++ "/execute") executeResp =
          ReqResult.ok executeResp := by
        simp [request_model, he]
      have htr : approve_and_execute_model id approveResp executeResp =
          [Event.approveCall id, Event.executeCall id] := by
        simp [approve_and_execute_model, hreq, hreq2]
      rw [htr]
      refine ⟨rfl, ?_, fun hcontra => absurd ha hcontra⟩
      intro j hj
      cases j with
      | zero => simp at hj
      | succ n => exact Nat.succ_pos n
    · have hreq2 : request_model true ("/change-requests/" ++ id ++ "/execute") executeResp =
          ReqResult.err 2
            (serverErrorMsg ("/change-requests/" ++ id ++ "/execute") executeResp) := by
        simp [request_model, he]
      have htr : approve_and_execute_model id approveResp executeResp =
          [Event.approveCall id, Event.executeCall id,
           Event.errorOut (serverErrorMsg ("/change-requests/" ++ id ++ "/execute") executeResp),
           Event.exitedWith 2] := by
        simp [approve_and_execute_model, hreq, hreq2]
      rw [htr]
      refine ⟨rfl, ?_, fun hcontra => absurd ha hcontra⟩
      intro j hj
      cases j with
      | zero => simp at hj
      | succ n => exact Nat.succ_pos n
  · have hreq : request_model true ("/change-requests/" ++ id ++ "/approvals") approveResp =
        ReqResult.err 2
          (serverErrorMsg ("/change-requests/" ++ id ++ "/approvals") approveResp) := by
      simp [request_model, ha]
    have htr : approve_and_execute_model id approveResp executeResp =
        [Event.approveCall id,
         Event.errorOut (serverErrorMsg ("/change-requests/" ++ id ++ "/approvals") approveResp),
         Event.exitedWith 2] := by
      simp [approve_and_execute_model, hreq]
    rw [htr]
    refine ⟨rfl, ?_, ?_⟩
    · intro j hj
      cases j with
      | zero => simp at hj
      | succ n => exact Nat.succ_pos n
    · intro _
      simp

/-- Witness for C4: a failing approve call (status 418) yields the
abort trace with no execute call. -/
theorem c4_approve_before_execute_witness :
    approve_and_execute_model "cr1" ⟨418, "bad", ""⟩ ⟨200, "ok", ""⟩ =
      [Event.approveCall "cr1",
       Event.errorOut "Server returned HTTP error 418 for /change-requests/cr1/approvals:\nbad",
       Event.exitedWith 2] ∧
    Event.executeCall "cr1" ∉ approve_and_execute_model "cr1" ⟨418, "bad", ""⟩ ⟨200, "ok", ""⟩ := by
  have h := (c4_approve_before_execute "cr1" ⟨418, "bad", ""⟩ ⟨200, "ok", ""⟩).2.2 (by decide)
  exact ⟨by decide, h⟩

/-- C5: with error-exit enabled, a response whose status lies outside
[200, 400) makes `request` print the numeric status code and the
response body to the error stream and exit with code 2; the command
trace stops there, with exactly one submit call (no retry) and no
approve or execute call. -/
theorem c5_server_error_aborts (doExecute : Bool) (url : String)
    (submitResp approveResp executeResp : HttpResponse)
    (h : submitResp.status < 200 ∨ 400 ≤ submitResp.status) :
    request_model true url submitResp =
      ReqResult.err 2 ("Server returned HTTP error " ++ toString submitResp.status ++
        " for " ++ url ++ ":\n" ++ submitResp.body) ∧
    submit_then_finish doExecute url submitResp approveResp executeResp =
      [Event.submitCall,
       Event.errorOut ("Server returned HTTP error " ++ toString submitResp.status ++
         " for " ++ url ++ ":\n" ++ submitResp.body),
       Event.exitedWith 2] ∧
    (∀ cid : String,
      Event.approveCall cid ∉
        submit_then_finish doExecute url submitResp approveResp executeResp ∧
      Event.executeCall cid ∉
        submit_then_finish doExecute url submitResp approveResp executeResp) ∧
    (submit_then_finish doExecute url submitResp approveResp executeResp).count
      Event.submitCall = 1 := by
  have hcond : ¬(200 ≤ submitResp.status ∧ submitResp.status < 400) := by omega
  have hreq : request_model true url submitResp =
      ReqResult.err 2 (serverErrorMsg url submitResp) := by
    simp [request_model, hcond]
  have htr : submit_then_finish doExecute url submitResp approveResp executeResp =
      [Event.submitCall, Event.errorOut (serverErrorMsg url submitResp),
       Event.exitedWith 2] := by
    simp [submit_then_finish, hreq]
  refine ⟨hreq, htr, ?_, ?_⟩
  · intro cid
    rw [htr]
    exact ⟨by simp, by simp⟩
  · rw [htr]
    simp [List.count_cons]

/-- Witness for C5 at status 418. -/
theorem c5_server_error_aborts_witness :
    ((418 : Int) < 200 ∨ (400 : Int) ≤ 418) ∧
    request_model true "/res" ⟨418, "teapot", "cr1"⟩ =
      ReqResult.err 2 "Server returned HTTP error 418 for /res:\nteapot" ∧
    submit_then_finish true "/res" ⟨418, "teapot", "cr1"⟩ ⟨200, "ok", "a"⟩ ⟨200, "ok", "a"⟩ =
      [Event.submitCall,
       Event.errorOut "Server returned HTTP error 418 for /res:\nteapot",
       Event.exitedWith 2] := by
  obtain ⟨h1, h2, h3, h4⟩ := c5_server_error_aborts true "/res" ⟨418, "teapot", "cr1"⟩
    ⟨200, "ok", "a"⟩ ⟨200, "ok", "a"⟩ (by decide)
  refine ⟨by decide, ?_, ?_⟩
  · rw [h1]; decide
  · rw [h2]; decide

/-- C6: `delete-old-deployments` aborts with no deletions when the
target name is absent from the queried set; otherwise it deletes every
non-target deployment of the application one at a time in
descending-name order, each deletion its own change request, with the
log line `Deleting deployment <name>..` recorded before the call.  In
particular over `myapp-v2-r40`, `myapp-v2-r41`, `myapp-v2-r42`
targeting `myapp-v2-r42` it deletes `myapp-v2-r41` and then
`myapp-v2-r40`. -/
theorem c6_delete_old (deployments : List Deployment)
    (application version release cluster_id ns : String) :
    ((∀ d ∈ deployments, d.name ≠ application ++ "-" ++ version ++ "-" ++ release) →
      delete_old_deployments deployments application version release cluster_id ns =
        DeleteOutcome.aborted
          ("Deployment " ++ (application ++ "-" ++ version ++ "-" ++ release) ++
            " was not found.")) ∧
    ((application ++ "-" ++ version ++ "-" ++ release) ∈ deployments.map Deployment.name →
      delete_old_deployments deployments application version release cluster_id ns =
        DeleteOutcome.deleted
          ((((sortByNameDesc deployments).filter
              (fun d => decide (d.name ≠ application ++ "-" ++ version ++ "-" ++ release))).map
            Deployment.name).map (fun n =>
              ("Deleting deployment " ++ n ++ "..",
               "/kubernetes-clusters/" ++ cluster_id ++ "/namespaces/" ++ ns ++
                 "/deployments/" ++ n)))) ∧
    List.Pairwise (fun a b => strLe b.name a.name = true) (sortByNameDesc deployments) ∧
    delete_old_deployments [⟨"myapp-v2-r40"⟩, ⟨"myapp-v2-r41"⟩, ⟨"myapp-v2-r42"⟩]
        "myapp" "v2" "r42" "cl1" "default" =
      DeleteOutcome.deleted
        [("Deleting deployment myapp-v2-r41..",
          "/kubernetes-clusters/cl1/namespaces/default/deployments/myapp-v2-r41"),
         ("Deleting deployment myapp-v2-r40..",
          "/kubernetes-clusters/cl1/namespaces/default/deployments/myapp-v2-r40")] := by
  refine ⟨?_, ?_, sortByNameDesc_pairwise _, by decide⟩
  · intro h
    have hany : ((sortByNameDesc deployments).any
        (fun d => decide (d.name = application ++ "-" ++ version ++ "-" ++ release))) = false := by
      rw [List.any_eq_false]
      intro d hd
      simp [h d ((sortByNameDesc_perm deployments).mem_iff.mp hd)]
    simp [delete_old_deployments, collectDeletions_eq, hany]
  · intro hmem
    rcases List.mem_map.mp hmem with ⟨d, hd, hname⟩
    have hany : ((sortByNameDesc deployments).any
        (fun d => decide (d.name = application ++ "-" ++ version ++ "-" ++ release))) = true :=
      List.any_eq_true.mpr
        ⟨d, (sortByNameDesc_perm deployments).mem_iff.mpr hd, by simp [hname]⟩
    simp [delete_old_deployments, collectDeletions_eq, hany]

/-- Witness for C6 at the claim's example. -/
theorem c6_delete_old_witness :
    ("myapp" ++ "-" ++ "v2" ++ "-" ++ "r42") ∈
      ([⟨"myapp-v2-r40"⟩, ⟨"myapp-v2-r41"⟩, ⟨"myapp-v2-r42"⟩] :
        List Deployment).map Deployment.name ∧
    delete_old_deployments [⟨"myapp-v2-r40"⟩, ⟨"myapp-v2-r41"⟩, ⟨"myapp-v2-r42"⟩]
        "myapp" "v2" "r42" "cl1" "default" =
      DeleteOutcome.deleted
        [("Deleting deployment myapp-v2-r41..",
          "/kubernetes-clusters/cl1/namespaces/default/deployments/myapp-v2-r41"),
         ("Deleting deployment myapp-v2-r40..",
          "/kubernetes-clusters/cl1/namespaces/default/deployments/myapp-v2-r40")] := by
  refine ⟨by decide, ?_⟩
  have h := (c6_delete_old [⟨"myapp-v2-r40"⟩, ⟨"myapp-v2-r41"⟩, ⟨"myapp-v2-r42"⟩]
    "myapp" "v2" "r42" "cl1" "default").2.1 (by decide)
  rw [h]
  decide

/-- C7: when every poll returns zero pods, `wait-for-deployment` never
returns success — a zero-pod poll is not vacuously satisfied — and the
run ends in the timeout abort once the deadline is reached. -/
theorem c7_zero_pods_never_success (polls : Nat → List Pod)
    (h : ∀ j, polls j = []) (timeout interval : Int) :
    (wait_for_deployment polls timeout interval).success = false := by
  have key : ∀ (n ivPred i now cutoff : Nat), cutoff - now ≤ n →
      (waitLoop polls ivPred i now cutoff).success = false := by
    intro n
    induction n with
    | zero =>
      intro ivPred i now cutoff hle
      have hnlt : ¬ now < cutoff := by omega
      rw [waitLoop]
      simp [hnlt]
    | succ n ihn =>
      intro ivPred i now cutoff hle
      by_cases hlt : now < cutoff
      · rw [waitLoop]
        simp only [hlt, if_true, h i, List.length_nil]
        rw [if_neg (by simp)]
        exact ihn ivPred (i + 1) (now + (ivPred + 1)) cutoff (by omega)
      · rw [waitLoop]
        simp [hlt]
  simp only [wait_for_deployment]
  exact key ((min 7200 (max 0 timeout)).toNat) _ 0 0 _ (le_refl _)

/-- Witness for C7: all-empty polls, timeout 25, interval 10. -/
theorem c7_zero_pods_never_success_witness :
    (wait_for_deployment (fun _ => []) 25 10).success = false :=
  c7_zero_pods_never_success (fun _ => []) (fun _ => rfl) 25 10

/-- C8: a pod whose phase is `Running` and whose `containerStatuses`
is empty or absent counts as ready, so a reached, non-empty poll whose
pods are all of that shape makes the loop return success at that very
poll. -/
theorem c8_running_empty_containers_ready (polls : Nat → List Pod)
    (ivPred i now cutoff : Nat) (hlt : now < cutoff) (hne : polls i ≠ [])
    (hp : ∀ p ∈ polls i, p.phase = some "Running" ∧ p.containerStatuses.getD [] = []) :
    (∀ p ∈ polls i, podReady p = true) ∧
    waitLoop polls ivPred i now cutoff = ⟨true, i + 1⟩ := by
  have hready : ∀ p ∈ polls i, podReady p = true := by
    intro p hpm
    rcases hp p hpm with ⟨h1, h2⟩
    simp [podReady, h1, h2]
  refine ⟨hready, ?_⟩
  have hcount : (polls i).countP (fun p => podReady p) = (polls i).length :=
    List.countP_eq_length.mpr hready
  have hlen : (polls i).length ≠ 0 := by
    intro h0
    exact hne (List.length_eq_zero.mp h0)
  rw [waitLoop]
  simp [hlt, hlen, hcount]

/-- Witness for C8: one pod with absent `containerStatuses` and one
with an empty list, both `Running`. -/
theorem c8_running_empty_containers_ready_witness :
    waitLoop (fun _ => [⟨some "Running", none⟩, ⟨some "Running", some []⟩]) 0 0 0 5 =
      ⟨true, 1⟩ :=
  (c8_running_empty_containers_ready
    (fun _ => [⟨some "Running", none⟩, ⟨some "Running", some []⟩]) 0 0 0 5
    (by decide) (by decide) (by decide)).2

/-- C9: `switch-deployment` never validates `target_replicas ≤ total`:
for a ratio `a/b` with `a > b` and a queried set containing the
target, the patch is still built and submitted, and the first
non-target deployment in descending-name order is assigned the
negative count `b - a`. -/
theorem c9_no_ratio_validation (deployments : List Deployment)
    (application version release : String) (a b : Int)
    (hab : b < a)
    (hmem : (application ++ "-" ++ version ++ "-" ++ release) ∈ deployments.map Deployment.name) :
    isSubmitted (switch_deployment deployments application version release a b) = true ∧
    b - a < 0 ∧
    (∀ i : Nat, ∀ x : Deployment, (sortByNameDesc deployments)[i]? = some x →
      x.name ≠ application ++ "-" ++ version ++ "-" ++ release →
      ((sortByNameDesc deployments).take i).all
        (fun y => decide (y.name = application ++ "-" ++ version ++ "-" ++ release)) = true →
      (outcomeEntries (switch_deployment deployments application version release a b))[i]? =
        some (setReplicasEntry x.name (b - a))) := by
  have hsub := switch_deployment_submitted_eq deployments application version release a b hmem
  refine ⟨by rw [hsub]; rfl, by omega, ?_⟩
  intro i x hx hxt hall
  rw [hsub]
  show ((switchWalk (application ++ "-" ++ version ++ "-" ++ release) a (b - a)
    (sortByNameDesc deployments)).1)[i]? = _
  rw [switchWalk_fst_get?, hx]
  simp [hxt, hall]

/-- Witness for C9: ratio 3/2 over two deployments; the non-target
first in sorted order receives -1 and the patch is submitted. -/
theorem c9_no_ratio_validation_witness :
    ((2 : Int) < 3) ∧
    isSubmitted (switch_deployment [⟨"myapp-v1-r1"⟩, ⟨"myapp-v1-r2"⟩]
      "myapp" "v1" "r1" 3 2) = true ∧
    (outcomeEntries (switch_deployment [⟨"myapp-v1-r1"⟩, ⟨"myapp-v1-r2"⟩]
      "myapp" "v1" "r1" 3 2))[0]? = some (setReplicasEntry "myapp-v1-r2" (-1)) := by
  obtain ⟨h1, h2, h3⟩ := c9_no_ratio_validation [⟨"myapp-v1-r1"⟩, ⟨"myapp-v1-r2"⟩]
    "myapp" "v1" "r1" 3 2 (by decide) (by decide)
  refine ⟨by decide, h1, ?_⟩
  have h4 := h3 0 ⟨"myapp-v1-r2"⟩ (by decide) (by decide) (by decide)
  rw [h4]
  decide

/-- C10: `wait-for-deployment` with timeout 0 issues no poll at all
and aborts immediately: the deadline equals the starting clock and the
loop body only runs while the clock is strictly below the deadline. -/
theorem c10_timeout_zero_no_poll (polls : Nat → List Pod) (interval : Int) :
    wait_for_deployment polls 0 interval = ⟨false, 0⟩ := by
  simp [wait_for_deployment, waitLoop]

/-- Witness for C10 at concrete arguments. -/
theorem c10_timeout_zero_no_poll_witness :
    wait_for_deployment (fun _ => [⟨some "Running", some []⟩]) 0 10 = ⟨false, 0⟩ :=
  c10_timeout_zero_no_poll (fun _ => [⟨some "Running", some []⟩]) 10
